import Mathlib

/-!
Verification of the SqPack extraction library (last-legend-dob).

This file shallowly embeds the binary pipeline of the repository:
path hashing (`sqpath.rs`), index-file path resolution, index entry
decoding (`index2.rs`), block-streamed decompression (`dat.rs`), the
SCD audio container decoder (`transformers/scd_tf.rs`) and the
extension-matched transformer chain (`simple_task.rs`,
`transformers/mod.rs`).

Bytes are modelled as `Nat` values (< 256 where it matters), machine
integers as `Nat` with explicit masking, and fallible operations with
`Option`/`Except`.  External collaborators (the deflate decoder of the
`flate2` crate, the ffmpeg transcoder) are abstracted: a deflate block
is represented by the byte list it decodes to, and the transcoder by an
oracle function passed to the definitions that invoke it.
-/

set_option maxRecDepth 40000

/-! ## Path hashing (`SqPath::sq_index_hash`, src/lib/src/sqpath.rs)

The source computes `crc::Crc::<u32>::new(&crc::CRC_32_JAMCRC)
.checksum(path.to_ascii_lowercase().as_bytes())`.  CRC-32/JAMCRC is the
reflected CRC-32 with polynomial 0x04C11DB7 (reflected: 0xEDB88320),
initial value 0xFFFFFFFF and no final XOR.  We embed it bit by bit. -/

/-- One shift step of the reflected CRC-32: shift right, conditionally
XOR the reflected polynomial 0xEDB88320. -/
def crc32_shift (crc : Nat) : Nat :=
  if crc % 2 = 1 then (crc / 2) ^^^ 0xEDB88320 else crc / 2

/-- Fold one input byte into the running CRC (reflected algorithm). -/
def crc32_byte (crc : Nat) (b : Nat) : Nat :=
  Nat.iterate crc32_shift 8 (crc ^^^ (b % 256))

/-- CRC-32/JAMCRC of a byte list: init 0xFFFFFFFF, reflected in/out,
no final XOR. -/
def crc32_jamcrc (bytes : List Nat) : Nat :=
  bytes.foldl crc32_byte 0xFFFFFFFF

/-- The bytes of a string.  Both the source (`str::as_bytes`) and this
file use the UTF-8 encoding; every concrete string in this development
is ASCII, where the code-point list is byte-for-byte the encoding. -/
def strBytes (s : String) : List Nat := s.data.map Char.toNat

/-- ASCII lowercasing of one byte (`u8::to_ascii_lowercase`). -/
def toAsciiLowerByte (b : Nat) : Nat :=
  if 65 ≤ b ∧ b ≤ 90 then b + 32 else b

/-- `SqPath::sq_index_hash`: the CRC-32/JAMCRC of the ASCII-lowercased
path bytes. -/
def sq_index_hash (bytes : List Nat) : Nat :=
  crc32_jamcrc (bytes.map toAsciiLowerByte)

/-! ## Index file path resolution (src/lib/src/sqpath.rs)

`SqPath::sqpack_index_path` combines `FileType::parse_from_sqpath`
(first `/`-separated segment), `Expansion::parse_from_sqpath` (second
segment) and `SqPackNumber::parse_from_sqpath` (leading `_`-token of
the third segment as one-byte hex, defaulting to 0), then renders
`<repo>/<expansion>/<cat><exp><spn>.win32.index2`. -/

/-- Splitting a character list at a separator, with Rust
`str::split(char)` semantics: always at least one piece, empty pieces
kept (`"a//b"` gives `["a", "", "b"]`, `""` gives `[""]`). -/
def splitOnChar (sep : Char) : List Char → List (List Char)
  | [] => [[]]
  | c :: rest =>
    match splitOnChar sep rest with
    | [] => if c = sep then [[], []] else [[c]]
    | h :: t => if c = sep then [] :: h :: t else (c :: h) :: t

/-- The `/`-separated segments of a path string. -/
def pathSegments (s : String) : List String :=
  (splitOnChar '/' s.data).map String.mk

/-- The category enumeration (`FileType`). -/
inductive FileType where
  | Common | BGCommon | BG | Cut | Chara | Shader | UI | Sound | VFX
  | UIScript | EXD | GameScript | Music | SqpackTest | Debug
deriving DecidableEq, Repr

/-- The first-segment table of `FileType::parse_from_sqpath`. -/
def FileType.ofSeg : String → Option FileType
  | "common" => some .Common
  | "bgcommon" => some .BGCommon
  | "bg" => some .BG
  | "cut" => some .Cut
  | "chara" => some .Chara
  | "shader" => some .Shader
  | "ui" => some .UI
  | "sound" => some .Sound
  | "vfx" => some .VFX
  | "ui_script" => some .UIScript
  | "exd" => some .EXD
  | "game_script" => some .GameScript
  | "music" => some .Music
  | "_sqpack_test" => some .SqpackTest
  | "_debug" => some .Debug
  | _ => none

/-- `FileType::parse_from_sqpath`: the text before the first `/`
(requiring that a `/` exists), looked up in the closed table. -/
def FileType.parse_from_sqpath (s : String) : Option FileType :=
  match pathSegments s with
  | seg :: _ :: _ => FileType.ofSeg seg
  | _ => none

/-- `FileType::file_name_prefix_bytes` (two ASCII hex chars). -/
def FileType.file_name_prefix_bytes : FileType → String
  | .Common => "00"
  | .BGCommon => "01"
  | .BG => "02"
  | .Cut => "03"
  | .Chara => "04"
  | .Shader => "05"
  | .UI => "06"
  | .Sound => "07"
  | .VFX => "08"
  | .UIScript => "09"
  | .EXD => "0a"
  | .GameScript => "0b"
  | .Music => "0c"
  | .SqpackTest => "12"
  | .Debug => "13"

/-- The expansion enumeration. -/
inductive Expansion where
  | FFXIV | Heavensward | Stormblood | Shadowbringers | Endwalker
deriving DecidableEq, Repr

/-- The second-segment table of `Expansion::parse_from_sqpath`. -/
def Expansion.ofSeg : String → Option Expansion
  | "ffxiv" => some .FFXIV
  | "ex1" => some .Heavensward
  | "ex2" => some .Stormblood
  | "ex3" => some .Shadowbringers
  | "ex4" => some .Endwalker
  | _ => none

/-- `Expansion::parse_from_sqpath`: the second `/`-separated segment,
looked up in the closed table. -/
def Expansion.parse_from_sqpath (s : String) : Option Expansion :=
  ((pathSegments s).get? 1).bind Expansion.ofSeg

/-- `Expansion::file_name_prefix_bytes` (two ASCII hex chars). -/
def Expansion.file_name_prefix_bytes : Expansion → String
  | .FFXIV => "00"
  | .Heavensward => "01"
  | .Stormblood => "02"
  | .Shadowbringers => "03"
  | .Endwalker => "04"

/-- `Expansion::as_str`. -/
def Expansion.as_str : Expansion → String
  | .FFXIV => "ffxiv"
  | .Heavensward => "ex1"
  | .Stormblood => "ex2"
  | .Shadowbringers => "ex3"
  | .Endwalker => "ex4"

/-- The numeric value of one hex digit character, `none` when the
character is not a hex digit. -/
def hexDigitVal (c : Char) : Option Nat :=
  if '0' ≤ c ∧ c ≤ '9' then some (c.toNat - 48)
  else if 'a' ≤ c ∧ c ≤ 'f' then some (c.toNat - 97 + 10)
  else if 'A' ≤ c ∧ c ≤ 'F' then some (c.toNat - 65 + 10)
  else none

/-- `u8::from_str_radix(s, 16)`: an optional leading `+`, then at
least one hex digit, value at most 255 (overflow is an error). -/
def parseHexU8 (s : List Char) : Option Nat :=
  let cs := match s with
    | '+' :: rest => rest
    | cs => cs
  if cs.isEmpty then none
  else
    cs.foldl
      (fun acc c =>
        acc.bind fun v =>
          (hexDigitVal c).bind fun d =>
            if v * 16 + d ≤ 255 then some (v * 16 + d) else none)
      (some 0)

/-- `SqPackNumber::parse_from_sqpath`: present exactly when the path
has a third segment; its leading `_`-token parsed as one-byte hex,
any parse failure defaulting to 0. -/
def SqPackNumber.parse_from_sqpath (s : String) : Option Nat :=
  ((pathSegments s).get? 2).map fun filename_str =>
    (parseHexU8 ((splitOnChar '_' filename_str.data).headD [])).getD 0

/-- One nibble as a lowercase ASCII hex character code
(the source's branchy byte-to-hex in
`SqPackNumber::file_name_prefix_bytes`). -/
def hexDigitByte (d : Nat) : Nat :=
  if d < 10 then d + 0x30 else d + 0x61 - 10

/-- `SqPackNumber::file_name_prefix_bytes`: the two hex chars of the
byte, high nibble first. -/
def SqPackNumber.file_name_prefix_bytes (n : Nat) : List Nat :=
  [hexDigitByte (n >>> 4), hexDigitByte (n &&& 0xF)]

/-- A byte list as a string (all bytes in this file's uses are ASCII,
where bytes and code points agree). -/
def bytesToString (l : List Nat) : String :=
  String.mk (l.map Char.ofNat)

/-- `SqPath::sqpack_index_path`.  `Path::join` of the repository root,
the expansion directory and the file name is modelled as `/`-separated
concatenation (the repository root is taken without a trailing
slash). -/
def sqpack_index_path (sqpack : String) (s : String) : Option String :=
  (FileType.parse_from_sqpath s).bind fun file_type =>
    (Expansion.parse_from_sqpath s).bind fun expansion =>
      (SqPackNumber.parse_from_sqpath s).map fun sqpack_number =>
        sqpack ++ "/" ++ expansion.as_str ++ "/"
          ++ file_type.file_name_prefix_bytes
          ++ expansion.file_name_prefix_bytes
          ++ bytesToString (SqPackNumber.file_name_prefix_bytes sqpack_number)
          ++ ".win32.index2"

/-- A byte is a lowercase ASCII hex digit (`0`–`9` or `a`–`f`). -/
def isLowerHexDigit (b : Nat) : Prop :=
  (0x30 ≤ b ∧ b ≤ 0x39) ∨ (0x61 ≤ b ∧ b ≤ 0x66)

instance (b : Nat) : Decidable (isLowerHexDigit b) :=
  inferInstanceAs (Decidable ((0x30 ≤ b ∧ b ≤ 0x39) ∨ (0x61 ≤ b ∧ b ≤ 0x66)))

/-- The value a lowercase ASCII hex digit denotes. -/
def lowerHexDigitVal (b : Nat) : Nat :=
  if b ≤ 0x39 then b - 0x30 else b - 0x61 + 10

/-- `l` renders `n` as exactly two lowercase ASCII hex digits, high
nibble first. -/
def isLowerHexPair (l : List Nat) (n : Nat) : Prop :=
  l.length = 2 ∧ (∀ b ∈ l, isLowerHexDigit b)
    ∧ lowerHexDigitVal (l.getD 0 0) * 16 + lowerHexDigitVal (l.getD 1 0) = n

instance (l : List Nat) (n : Nat) : Decidable (isLowerHexPair l n) :=
  inferInstanceAs (Decidable (_ ∧ _ ∧ _))

/-! ## Data block headers (`DataBlockHeader`, src/lib/src/data/dat.rs) -/

/-- `DataBlockHeader` as read from a data file (after the asserted
`header_size == 0x10` and 4 bytes of padding). -/
structure DataBlockHeader where
  compressed_length : Nat
  decompressed_length : Nat
deriving DecidableEq, Repr

/-- `DataBlockHeader::is_compressed`.  `compressed_length < 32000`
means compressed; `== 32000` means stored raw; anything larger fails
the source's `assert_eq!` (modelled as `none`). -/
def DataBlockHeader.is_compressed (h : DataBlockHeader) : Option Bool :=
  if h.compressed_length < 32000 then some true
  else if h.compressed_length = 32000 then some false
  else none

/-- `DataBlockHeader::source_size`: how many bytes of the underlying
file the block's body occupies (handed to the deflate decoder resp.
the raw passthrough). -/
def DataBlockHeader.source_size (h : DataBlockHeader) : Option Nat :=
  h.is_compressed.map fun c =>
    if c then
      if (h.compressed_length + 0x10) % 0x80 ≠ 0 then
        h.compressed_length + (0x80 - (h.compressed_length + 0x10) % 0x80)
      else
        h.compressed_length
    else
      h.decompressed_length

/-- Rounding up to the next multiple of `m` (the spec-side formulation
of the 128-byte padding). -/
def roundUpTo (m x : Nat) : Nat := ((x + (m - 1)) / m) * m

/-! ## Index entry decoding (`Index2Entry`, src/lib/src/data/index2.rs)

The source wraps the packed `u32` in a `BitArray<u32, Lsb0>` and loads
bit ranges little-endian: `data_file_id` from bits 1..4 and
`offset_bytes` from bits 4..32, shifted left by 7.  A little-endian
load of bits `lo..hi` of `p` is `p / 2^lo % 2^(hi-lo)`. -/

/-- `data_file_id`: bits 1..4 of the packed value. -/
def Index2Entry.dataFileId (packed : Nat) : Nat :=
  packed / 2 ^ 1 % 2 ^ 3

/-- `offset_bytes`: bits 4..32 of the packed value, shifted left 7. -/
def Index2Entry.offsetBytes (packed : Nat) : Nat :=
  (packed / 2 ^ 4 % 2 ^ 28) * 2 ^ 7

/-- A decoded index entry, as the source stores it. -/
structure Index2Entry where
  hash : Nat
  data_file_id : Nat
  offset_bytes : Nat
deriving DecidableEq, Repr

/-- Decode one `Index2Entry` from its `hash` and `packed` words. -/
def Index2Entry.decode (hash packed : Nat) : Index2Entry :=
  { hash := hash
    data_file_id := Index2Entry.dataFileId packed
    offset_bytes := Index2Entry.offsetBytes packed }

/-! ## Errors (`LastLegendError`, src/lib/src/error.rs)

SqPath values are carried as their byte lists, paths of the host file
system as strings; error payloads not needed by any claim (`io::Error`,
`binrw::Error` causes) are reduced to their context message. -/

inductive LastLegendError where
  | InvalidSqPath (path : String)
  | MissingEntryFromIndex (file : List Nat) (index_path : String)
  | CollectionSheetLineInvalid (line : String)
  | SheetNameInvalid (name : String)
  | Custom (msg : String)
  | LastLegend (msg : String) (cause : LastLegendError)
  | Io (msg : String)
  | BinRW (msg : String)
  | FFMPEG (msg : String)
deriving DecidableEq, Repr

/-! ## Index entry table and hash map (`Index2`, src/lib/src/data/index2.rs)

`Index2` reads `index_data_size / ENTRY_SIZE` entries from the entry
table (binrw's `count_with`), pairing each with its hash, and collects
the pairs into a `HashMap<u32, Index2Entry>`; on duplicate keys the
later pair replaces the earlier one.  The hash map is modelled as an
association list with insert-or-replace semantics (`mapInsert`), which
keeps keys unique exactly like the `HashMap`. -/

/-- `ENTRY_SIZE`: hash + packed info. -/
def ENTRY_SIZE : Nat := 4 + 4

/-- The number of entries `Index2` reads from the table. -/
def Index2.entryCount (index_data_size : Nat) : Nat :=
  index_data_size / ENTRY_SIZE

/-- A 32-bit little-endian value from four bytes. -/
def le32 (b0 b1 b2 b3 : Nat) : Nat :=
  b0 + 256 * b1 + 65536 * b2 + 16777216 * b3

/-- Parse `count` `Index2Entry` records of 8 bytes each, in table
order, each paired with its hash exactly as the source's `count_with`
closure yields `(entry.hash, entry)`. -/
def parseEntryTable : Nat → List Nat → Option (List (Nat × Index2Entry))
  | 0, _ => some []
  | n + 1, b0 :: b1 :: b2 :: b3 :: b4 :: b5 :: b6 :: b7 :: rest =>
    (parseEntryTable n rest).map fun tail =>
      (le32 b0 b1 b2 b3,
        Index2Entry.decode (le32 b0 b1 b2 b3) (le32 b4 b5 b6 b7)) :: tail
  | _ + 1, _ => none

/-- `HashMap::insert`: replace the entry of an existing key (keys are
unique by construction, so at most one entry matches), else add a new
entry. -/
def mapInsert : List (Nat × Index2Entry) → Nat → Index2Entry →
    List (Nat × Index2Entry)
  | [], k, v => [(k, v)]
  | p :: t, k, v => if p.1 = k then (k, v) :: t else p :: mapInsert t k v

/-- Collecting the `(hash, entry)` pairs into the map in table order
(the `HashMap : FromIterator` collection the source's parse ends in). -/
def entriesMap (l : List (Nat × Index2Entry)) : List (Nat × Index2Entry) :=
  l.foldl (fun m p => mapInsert m p.1 p.2) []

/-- `HashMap::get`: the value stored at key `k`. -/
def mapLookup : List (Nat × Index2Entry) → Nat → Option Index2Entry
  | [], _ => none
  | p :: t, k => if p.1 = k then some p.2 else mapLookup t k

/-- `Index2::get_entry`: look the file's hash up in the entry map,
`MissingEntryFromIndex` if absent. -/
def Index2.get_entry (index_path : String) (entries : List (Nat × Index2Entry))
    (file : List Nat) : Except LastLegendError Index2Entry :=
  match mapLookup entries (sq_index_hash file) with
  | some e => .ok e
  | none => .error (.MissingEntryFromIndex file index_path)

/-! ## Block-streamed content (`DatEntryContent`, src/lib/src/data/dat.rs)

`DatEntryHeader::read_content` yields a `Read` implementation that
walks the entry's block descriptors: each `read` serves bytes from an
internal buffer holding the current decoded block, refilling it from
the next descriptor when exhausted, and returns 0 at the end of the
descriptor list (also dropping the buffer).  The deflate decoding of
one block (`read_block`) is external (`flate2`); a block is therefore
carried as its descriptor together with the byte list the block's body
decodes to (`read_exact` fills the buffer with exactly
`decompressed_length` of those bytes, asserted equal to the
descriptor's `decompressed_size`). -/

/-- `BinaryDatEntryHeaderBlock`: one block descriptor of a Binary
entry. -/
structure BinaryDatEntryHeaderBlock where
  offset : Nat
  block_size : Nat
  decompressed_size : Nat
deriving DecidableEq, Repr

/-- A block descriptor together with the bytes its body decodes to
(the deflate decoder's output, or the raw bytes of an uncompressed
block). -/
structure BlockData where
  desc : BinaryDatEntryHeaderBlock
  decoded : List Nat
deriving DecidableEq, Repr

/-- The internal buffer (`Buffer { content, pos, limit }`). -/
structure Buffer where
  content : List Nat
  pos : Nat
  limit : Nat
deriving DecidableEq, Repr

/-- `Buffer::len`: bytes still readable. -/
def Buffer.len (b : Buffer) : Nat := b.limit - b.pos

/-- `Buffer::can_read`. -/
def Buffer.can_read (b : Buffer) : Bool := decide (0 < b.len)

/-- The reader state: the remaining block iterator and the optional
buffer. -/
structure DatEntryContent where
  blocks : List BlockData
  buf : Option Buffer
deriving DecidableEq, Repr

/-- The common tail of `read`: copy `min (buf.len) (output len)`
bytes out of the buffer and advance `pos`. -/
def copyFromBuffer (buf : Buffer) (blocks : List BlockData) (outLen : Nat) :
    List Nat × DatEntryContent :=
  let len := min buf.len outLen
  ((buf.content.drop buf.pos).take len,
   ⟨blocks, some { buf with pos := buf.pos + len }⟩)

/-- Refill from the next block (`read_block` + the copy), or EOF when
no block remains (the source frees the buffer and returns `Ok(0)`).
After `read_block` the buffer holds the decoded block: `pos = 0`,
`limit` = the block's decompressed length = `decoded.length`. -/
def refillRead (blocks : List BlockData) (outLen : Nat) :
    List Nat × DatEntryContent :=
  match blocks with
  | [] => ([], ⟨[], none⟩)
  | b :: rest => copyFromBuffer ⟨b.decoded, 0, b.decoded.length⟩ rest outLen

/-- One `Read::read` call on `DatEntryContent`: serve from the buffer
while it can be read, else advance to the next block. -/
def contentRead (st : DatEntryContent) (outLen : Nat) :
    List Nat × DatEntryContent :=
  match st.buf with
  | some buf =>
    if buf.can_read then copyFromBuffer buf st.blocks outLen
    else refillRead st.blocks outLen
  | none => refillRead st.blocks outLen

/-- Bytes still to be served: the buffer's remainder plus all decoded
bytes of the remaining blocks (the termination measure of
`read_to_end`). -/
def DatEntryContent.meas : DatEntryContent → Nat
  | ⟨blocks, some b⟩ => b.len + (blocks.map fun x => x.decoded.length).sum
  | ⟨blocks, none⟩ => (blocks.map fun x => x.decoded.length).sum

/-- `Read::read_to_end` on `DatEntryContent`: repeat `read` with a
nonempty scratch buffer of `chunk` bytes, concatenating the results,
until a read returns 0 bytes; the final reader state is returned with
the bytes. -/
def readToEnd (chunk : Nat) (st : DatEntryContent) :
    List Nat × DatEntryContent :=
  let r := contentRead st chunk
  if h : r.1 = [] then ([], r.2)
  else
    let rest := readToEnd chunk r.2
    (r.1 ++ rest.1, rest.2)
termination_by st.meas
decreasing_by
  have key : ∀ (st : DatEntryContent) (chunk : Nat),
      (contentRead st chunk).1 ≠ [] →
      (contentRead st chunk).2.meas < st.meas := ?_
  · exact key st chunk h
  intro st chunk h
  have hrefill : ∀ (blocks : List BlockData) (outLen : Nat),
      (refillRead blocks outLen).1 ≠ [] →
      (refillRead blocks outLen).2.meas
        < (blocks.map fun x => x.decoded.length).sum := by
    intro blocks outLen h
    rcases blocks with _ | ⟨b, rest⟩
    · simp [refillRead] at h
    · simp only [refillRead, copyFromBuffer, List.drop_zero,
        ne_eq, List.take_eq_nil_iff, not_or] at h
      obtain ⟨hlen, hne⟩ := h
      have hpos : 0 < b.decoded.length := List.length_pos.mpr hne
      simp only [refillRead, copyFromBuffer, DatEntryContent.meas, Buffer.len,
        List.map_cons, List.sum_cons]
      omega
  rcases st with ⟨blocks, _ | buf⟩
  · simp only [contentRead] at h ⊢
    exact hrefill blocks chunk h
  · simp only [contentRead] at h ⊢
    by_cases hcr : buf.can_read
    · simp only [hcr, if_true] at h ⊢
      simp only [copyFromBuffer, ne_eq, List.take_eq_nil_iff, not_or] at h
      obtain ⟨hlen, _⟩ := h
      have hread : 0 < buf.len := by
        unfold Buffer.can_read at hcr
        exact of_decide_eq_true hcr
      simp only [copyFromBuffer, DatEntryContent.meas, Buffer.len]
        at hread ⊢
      omega
    · simp only [hcr, Bool.false_eq_true, if_false] at h ⊢
      have hlen0 : buf.len = 0 := by
        unfold Buffer.can_read at hcr
        simp at hcr
        omega
      have hlt := hrefill blocks chunk h
      simp only [DatEntryContent.meas] at hlt ⊢
      omega

/-! ## SCD decoding (`ScdTfForFile::decode`, src/lib/src/transformers/scd_tf.rs)

The decoder materializes the whole entry, parses the SCD container
(binrw) and emits an audio byte stream.  The model starts from the
parsed container: header fields the decoder reads, the sound-data
variant (selected by `data_type` via binrw's `pre_assert`s), and the
bytes following the parse cursor (which, after an `OggData` parse,
stands right after the vorbis header, where the `data_size`-byte
payload is taken from; after an `MsAdpcmData` parse, right after the
fmt header).  The external ffmpeg rewrap (`format_rewrite`) is an
oracle argument. -/

inductive ScdAudioTransform where
  | Wav | Ogg | Flac
deriving DecidableEq, Repr

/-- `ScdAudioTransform::extension_str`. -/
def ScdAudioTransform.extension_str : ScdAudioTransform → String
  | .Wav => "wav"
  | .Ogg => "ogg"
  | .Flac => "flac"

inductive DataType where
  | Empty | Ogg | MsAdpcm
deriving DecidableEq, Repr

/-- The on-disk `i32` tag of each `DataType` variant. -/
def DataType.code : DataType → Int
  | .Empty => -1
  | .Ogg => 0x6
  | .MsAdpcm => 0xC

inductive EncryptionType where
  | None | VorbisHeaderXor | InternalTableXor
deriving DecidableEq, Repr

/-- The on-disk `u16` tag of each `EncryptionType` variant. -/
def EncryptionType.code : EncryptionType → Nat
  | .None => 0
  | .VorbisHeaderXor => 0x2002
  | .InternalTableXor => 0x2003

/-- `OggMetaHeader` (the fields the decoder reads; the seek table is
skipped by the parse). -/
structure OggMetaHeader where
  encryption_type : EncryptionType
  xor_byte : Nat
  vorbis_header : List Nat
deriving DecidableEq, Repr

/-- `MsAdpcmMetaHeader` (WAVEFORMATEX-style; the signed fields are
held as their unsigned little-endian bit patterns). -/
structure MsAdpcmMetaHeader where
  format_tag : Nat
  channels : Nat
  samples_per_second : Nat
  avg_bytes_per_second : Nat
  block_align : Nat
  bits_per_sample : Nat
  size : Nat
  samples_per_block : Nat
  num_coefficients : Nat
  coefficients : List Nat
deriving DecidableEq, Repr

inductive SoundData where
  | Empty
  | OggData (m : OggMetaHeader)
  | MsAdpcmData (m : MsAdpcmMetaHeader)
deriving DecidableEq, Repr

/-- The `data_type` under which binrw's `pre_assert`s parse each
variant. -/
def SoundData.expectedType : SoundData → DataType
  | .Empty => .Empty
  | .OggData _ => .Ogg
  | .MsAdpcmData _ => .MsAdpcm

/-- `SoundEntryHeader` (the fields the decoder reads). -/
structure SoundEntryHeader where
  data_size : Nat
  data_type : DataType
deriving DecidableEq, Repr

/-- A parsed SCD container: header, sound data, and the bytes
following the parse cursor. -/
structure Scd where
  sound_entry_header : SoundEntryHeader
  sound_data : SoundData
  after : List Nat
deriving DecidableEq, Repr

/-- Well-formedness of the parse: the variant matches `data_type`
(guaranteed by binrw's `pre_assert`s). -/
def scdWf (scd : Scd) : Prop :=
  scd.sound_entry_header.data_type = scd.sound_data.expectedType

instance (scd : Scd) : Decidable (scdWf scd) :=
  inferInstanceAs (Decidable (_ = _))

/-- The 256-byte XOR table of the `InternalTableXor` cipher. -/
def XOR_TABLE : List Nat := [
  0x3A, 0x32, 0x32, 0x32, 0x03, 0x7E, 0x12, 0xF7,
  0xB2, 0xE2, 0xA2, 0x67, 0x32, 0x32, 0x22, 0x32,
  0x32, 0x52, 0x16, 0x1B, 0x3C, 0xA1, 0x54, 0x7B,
  0x1B, 0x97, 0xA6, 0x93, 0x1A, 0x4B, 0xAA, 0xA6,
  0x7A, 0x7B, 0x1B, 0x97, 0xA6, 0xF7, 0x02, 0xBB,
  0xAA, 0xA6, 0xBB, 0xF7, 0x2A, 0x51, 0xBE, 0x03,
  0xF4, 0x2A, 0x51, 0xBE, 0x03, 0xF4, 0x2A, 0x51,
  0xBE, 0x12, 0x06, 0x56, 0x27, 0x32, 0x32, 0x36,
  0x32, 0xB2, 0x1A, 0x3B, 0xBC, 0x91, 0xD4, 0x7B,
  0x58, 0xFC, 0x0B, 0x55, 0x2A, 0x15, 0xBC, 0x40,
  0x92, 0x0B, 0x5B, 0x7C, 0x0A, 0x95, 0x12, 0x35,
  0xB8, 0x63, 0xD2, 0x0B, 0x3B, 0xF0, 0xC7, 0x14,
  0x51, 0x5C, 0x94, 0x86, 0x94, 0x59, 0x5C, 0xFC,
  0x1B, 0x17, 0x3A, 0x3F, 0x6B, 0x37, 0x32, 0x32,
  0x30, 0x32, 0x72, 0x7A, 0x13, 0xB7, 0x26, 0x60,
  0x7A, 0x13, 0xB7, 0x26, 0x50, 0xBA, 0x13, 0xB4,
  0x2A, 0x50, 0xBA, 0x13, 0xB5, 0x2E, 0x40, 0xFA,
  0x13, 0x95, 0xAE, 0x40, 0x38, 0x18, 0x9A, 0x92,
  0xB0, 0x38, 0x00, 0xFA, 0x12, 0xB1, 0x7E, 0x00,
  0xDB, 0x96, 0xA1, 0x7C, 0x08, 0xDB, 0x9A, 0x91,
  0xBC, 0x08, 0xD8, 0x1A, 0x86, 0xE2, 0x70, 0x39,
  0x1F, 0x86, 0xE0, 0x78, 0x7E, 0x03, 0xE7, 0x64,
  0x51, 0x9C, 0x8F, 0x34, 0x6F, 0x4E, 0x41, 0xFC,
  0x0B, 0xD5, 0xAE, 0x41, 0xFC, 0x0B, 0xD5, 0xAE,
  0x41, 0xFC, 0x3B, 0x70, 0x71, 0x64, 0x33, 0x32,
  0x12, 0x32, 0x32, 0x36, 0x70, 0x34, 0x2B, 0x56,
  0x22, 0x70, 0x3A, 0x13, 0xB7, 0x26, 0x60, 0xBA,
  0x1B, 0x94, 0xAA, 0x40, 0x38, 0x00, 0xFA, 0xB2,
  0xE2, 0xA2, 0x67, 0x32, 0x32, 0x12, 0x32, 0xB2,
  0x32, 0x32, 0x32, 0x32, 0x75, 0xA3, 0x26, 0x7B,
  0x83, 0x26, 0xF9, 0x83, 0x2E, 0xFF, 0xE3, 0x16,
  0x7D, 0xC0, 0x1E, 0x63, 0x21, 0x07, 0xE3, 0x01]

/-- `XorRead` over a whole stream, starting the position counter at
`start`: each byte is XORed with `lookup` of the running position. -/
def xorStreamFrom (lookup : Nat → Nat) : Nat → List Nat → List Nat
  | _, [] => []
  | i, b :: rest => (b ^^^ lookup i) :: xorStreamFrom lookup (i + 1) rest

/-- `XorRead::new(reader, lookup)` read to end (position counter
starts at 0). -/
def xorStream (lookup : Nat → Nat) (bytes : List Nat) : List Nat :=
  xorStreamFrom lookup 0 bytes

/-- A 16-bit value as two little-endian bytes. -/
def le16Bytes (v : Nat) : List Nat := [v % 256, v / 256 % 256]

/-- A 32-bit value as four little-endian bytes. -/
def le32Bytes (v : Nat) : List Nat :=
  [v % 256, v / 256 % 256, v / 65536 % 256, v / 16777216 % 256]

/-- binrw `write_le` of `MsAdpcmMetaHeader` (the RIFF fmt chunk). -/
def MsAdpcmMetaHeader.writeLe (h : MsAdpcmMetaHeader) : List Nat :=
  le16Bytes h.format_tag ++ le16Bytes h.channels
    ++ le32Bytes h.samples_per_second ++ le32Bytes h.avg_bytes_per_second
    ++ le16Bytes h.block_align ++ le16Bytes h.bits_per_sample
    ++ le16Bytes h.size ++ le16Bytes h.samples_per_block
    ++ le16Bytes h.num_coefficients
    ++ (h.coefficients.map le16Bytes).flatten

/-- The RIFF/WAVE buffer the MS-ADPCM branch builds: `"RIFF"`, the
back-patched `total - 8` length, `"WAVE"`, the fmt chunk with its
length, then the `data` chunk whose length field is the `take_seek`
limit `data_size`. -/
def msAdpcmWav (header : MsAdpcmMetaHeader) (data : List Nat)
    (data_size : Nat) : List Nat :=
  let fmt_header := header.writeLe
  let rest := strBytes "WAVE" ++ strBytes "fmt "
    ++ le32Bytes fmt_header.length ++ fmt_header
    ++ strBytes "data" ++ le32Bytes data_size ++ data
  strBytes "RIFF" ++ le32Bytes rest.length ++ rest

/-- `ScdTfForFile::decode` on a parsed container.  `format_rewrite`
is the external ffmpeg rewrap oracle (the source's
`ffmpeg::format_rewrite` subprocess). -/
def ScdTfForFile.decode
    (format_rewrite : String → List Nat → Except LastLegendError (List Nat))
    (audio_transform : ScdAudioTransform) (scd : Scd) :
    Except LastLegendError (List Nat) :=
  match scd.sound_data with
  | .Empty => .error (.Custom "Empty sound data")
  | .OggData m =>
    let vorbis_header :=
      if m.encryption_type = .VorbisHeaderXor then
        xorStream (fun _ => m.xor_byte) m.vorbis_header
      else m.vorbis_header
    let base := vorbis_header
      ++ scd.after.take scd.sound_entry_header.data_size
    let ogg :=
      if m.encryption_type = .InternalTableXor then
        xorStream (fun index =>
          XOR_TABLE.getD
              (((scd.sound_entry_header.data_size &&& 0x3F) + index) &&& 0xFF)
              0
            ^^^ (scd.sound_entry_header.data_size &&& 0x7F)) base
      else base
    match audio_transform with
    | .Wav => format_rewrite "flac" ogg
    | .Ogg => .ok ogg
    | .Flac => format_rewrite "flac" ogg
  | .MsAdpcmData header =>
    let wav := msAdpcmWav header
      (scd.after.take scd.sound_entry_header.data_size)
      scd.sound_entry_header.data_size
    match audio_transform with
    | .Wav => .ok wav
    | .Ogg => format_rewrite "ogg" wav
    | .Flac => format_rewrite "flac" wav

/-! ## Transformer chain (src/lib/src/transformers/mod.rs,
src/lib/src/simple_task.rs)

`create_transformed_reader` folds the caller-ordered transformer list
over the file name and content: a transformer whose extension match
(`maybe_for`) fails is skipped; a matching one renames the file and
replaces the byte stream with its `transform` output.  The byte
transformations themselves (`ScdTf::transform` buffers and decodes,
the loop/rewrap transformers shell out to ffmpeg) are abstracted as
the `applyTf` oracle: the claims about the chain concern matching and
skipping. -/

/-- Rust `str::ends_with`. -/
def strEndsWith (s suffix : String) : Bool :=
  suffix.data.isSuffixOf s.data

inductive TransformerImpl where
  | ScdToFlac | LoopFlac | ScdToOgg | LoopOgg | FlacToOgg | ScdToWav
deriving DecidableEq, Repr

/-- Whether `maybe_for` yields a file-specific transformer: a pure
extension test (`.scd` for the ScdTf variants, the configured
extension for the loop and rewrap transformers). -/
def TransformerImpl.matchesFile : TransformerImpl → String → Bool
  | .ScdToFlac, file => strEndsWith file ".scd"
  | .LoopFlac, file => strEndsWith file ".flac"
  | .ScdToOgg, file => strEndsWith file ".scd"
  | .LoopOgg, file => strEndsWith file ".ogg"
  | .FlacToOgg, file => strEndsWith file ".flac"
  | .ScdToWav, file => strEndsWith file ".scd"

/-- The position of the last `.` in a file name, if any. -/
def lastDotPos (name : List Char) : Option Nat :=
  match name.reverse.indexOf? '.' with
  | none => none
  | some r => some (name.length - 1 - r)

/-- Rust `Path::file_stem`: the file name up to its last `.`, except
that a leading-dot name with no further dot is kept whole. -/
def fileStem (name : List Char) : List Char :=
  match lastDotPos name with
  | some p => if p = 0 then name else name.take p
  | none => name

/-- Rust `Path::with_extension`: replace (or append) the extension of
the last `/`-separated segment. -/
def withExtension (s ext : String) : String :=
  let segs := splitOnChar '/' s.data
  let dir := segs.dropLast
  let name := (segs.getLast? ).getD []
  let newName := fileStem name ++ ('.' :: ext.data)
  String.mk (((dir ++ [newName]).intersperse ['/']).flatten)

/-- `TransformerForFile::renamed_file` of each transformer: the ScdTf
and rewrap variants change the extension, the loop variants keep the
name. -/
def TransformerImpl.renamed_file : TransformerImpl → String → String
  | .ScdToFlac, file => withExtension file "flac"
  | .LoopFlac, file => file
  | .ScdToOgg, file => withExtension file "ogg"
  | .LoopOgg, file => file
  | .FlacToOgg, file => withExtension file "ogg"
  | .ScdToWav, file => withExtension file "wav"

/-- `create_transformed_reader`'s transformer loop: skip a
non-matching transformer; for a matching one, rename and replace the
stream with the transform's output (`applyTf`, the file-specific
`transform`), aborting on its error. -/
def create_transformed_reader
    (applyTf : TransformerImpl → String → List Nat →
      Except LastLegendError (List Nat)) :
    List TransformerImpl → String → List Nat →
    Except LastLegendError (String × List Nat)
  | [], file_name, bytes => .ok (file_name, bytes)
  | t :: ts, file_name, bytes =>
    if t.matchesFile file_name then
      match applyTf t file_name bytes with
      | .error e => .error e
      | .ok bytes2 =>
        create_transformed_reader applyTf ts (t.renamed_file file_name) bytes2
    else
      create_transformed_reader applyTf ts file_name bytes

/-! Supporting lemmas about the map model. -/

theorem mapLookup_mapInsert_ne (m : List (Nat × Index2Entry)) (k : Nat)
    (v : Index2Entry) (k' : Nat) (hne : k' ≠ k) :
    mapLookup (mapInsert m k v) k' = mapLookup m k' := by
  induction m with
  | nil => simp [mapInsert, mapLookup, Ne.symm hne]
  | cons p t ih =>
    by_cases hp : p.1 = k
    · simp [mapInsert, mapLookup, hp, Ne.symm hne]
    · simp [mapInsert, mapLookup, hp, ih]

theorem mapLookup_mapInsert_self (m : List (Nat × Index2Entry)) (k : Nat)
    (v : Index2Entry) :
    mapLookup (mapInsert m k v) k = some v := by
  induction m with
  | nil => simp [mapInsert, mapLookup]
  | cons p t ih =>
    by_cases hp : p.1 = k
    · simp [mapInsert, mapLookup, hp]
    · simp [mapInsert, mapLookup, hp, ih]

theorem mapLookup_foldl_of_not_mem (l : List (Nat × Index2Entry))
    (m : List (Nat × Index2Entry)) (k : Nat)
    (h : ∀ p ∈ l, p.1 ≠ k) :
    mapLookup (l.foldl (fun m p => mapInsert m p.1 p.2) m) k
      = mapLookup m k := by
  induction l generalizing m with
  | nil => rfl
  | cons p t ih =>
    rw [List.foldl_cons, ih _ fun q hq => h q (List.mem_cons_of_mem _ hq)]
    exact mapLookup_mapInsert_ne m p.1 p.2 k
      fun hk => h p (List.mem_cons_self _ _) hk.symm

theorem keys_mapInsert (m : List (Nat × Index2Entry)) (k : Nat)
    (v : Index2Entry) :
    (mapInsert m k v).map Prod.fst
      = if k ∈ m.map Prod.fst then m.map Prod.fst
        else m.map Prod.fst ++ [k] := by
  induction m with
  | nil => simp [mapInsert]
  | cons p t ih =>
    by_cases hp : p.1 = k
    · simp [mapInsert, hp]
    · by_cases hk : k ∈ t.map Prod.fst
      · simp [mapInsert, hp, ih, hk, Ne.symm hp]
      · simp [mapInsert, hp, ih, hk, Ne.symm hp]

/-- The keys of the map after inserting along `l`: no duplicates, and
exactly the keys of the accumulator and of `l`. -/
theorem entriesMap_keys_foldl (l : List (Nat × Index2Entry)) :
    ∀ m : List (Nat × Index2Entry),
      (m.map Prod.fst).Nodup →
      ((l.foldl (fun m p => mapInsert m p.1 p.2) m).map Prod.fst).Nodup
      ∧ ∀ x, x ∈ (l.foldl (fun m p => mapInsert m p.1 p.2) m).map Prod.fst ↔
          x ∈ m.map Prod.fst ∨ x ∈ l.map Prod.fst := by
  induction l with
  | nil => exact fun m hm => ⟨hm, by simp⟩
  | cons p t ih =>
    intro m hm
    rw [List.foldl_cons]
    have hnodup : ((mapInsert m p.1 p.2).map Prod.fst).Nodup := by
      rw [keys_mapInsert]
      split_ifs with hmem
      · exact hm
      · rw [List.nodup_append]
        exact ⟨hm, List.nodup_singleton _,
          fun x hx hx1 => absurd (List.mem_singleton.mp hx1 ▸ hx) hmem⟩
    have hmemkeys : ∀ x, x ∈ (mapInsert m p.1 p.2).map Prod.fst ↔
        x ∈ m.map Prod.fst ∨ x = p.1 := by
      intro x
      rw [keys_mapInsert]
      split_ifs with hmem
      · constructor
        · exact fun hx => Or.inl hx
        · rintro (hx | rfl)
          · exact hx
          · exact hmem
      · simp [List.mem_append]
    obtain ⟨h1, h2⟩ := ih (mapInsert m p.1 p.2) hnodup
    refine ⟨h1, fun x => ?_⟩
    rw [h2 x, hmemkeys x]
    simp only [List.map_cons, List.mem_cons]
    tauto

/-! ## Theorems: C1, C3, C4, C5 -/

/-- C1: `sq_index_hash` is the CRC-32/JAMCRC of the ASCII-lowercased
bytes, hence any two paths equal up to ASCII case hash alike, and the
two concrete vectors `hash("music/ffxiv") = 0x0AF269D6` and
`hash("BGM_System_Title.scd") = 0xE3B71579` hold. -/
theorem sq_index_hash_spec :
    (∀ bytes : List Nat,
      sq_index_hash bytes = crc32_jamcrc (bytes.map toAsciiLowerByte))
    ∧ (∀ b1 b2 : List Nat,
        b1.map toAsciiLowerByte = b2.map toAsciiLowerByte →
        sq_index_hash b1 = sq_index_hash b2)
    ∧ sq_index_hash (strBytes "music/ffxiv") = 0x0AF269D6
    ∧ sq_index_hash (strBytes "BGM_System_Title.scd") = 0xE3B71579 := by
  refine ⟨fun bytes => rfl, fun b1 b2 h => ?_, by decide, by decide⟩
  simp only [sq_index_hash, h]

/-- C1 witness: two spellings of `music/ffxiv` differing only in ASCII
case lowercase identically and hash identically. -/
theorem sq_index_hash_spec_witness :
    (strBytes "MuSiC/FFxiv").map toAsciiLowerByte
      = (strBytes "music/ffxiv").map toAsciiLowerByte
    ∧ sq_index_hash (strBytes "MuSiC/FFxiv")
      = sq_index_hash (strBytes "music/ffxiv") :=
  ⟨by decide, sq_index_hash_spec.2.1 _ _ (by decide)⟩

/-- The source's padding computation agrees with rounding the padded
footprint (body plus the 0x10 header) up to the next 128-byte multiple
and subtracting the header again. -/
theorem roundUpTo_pad (cl : Nat) :
    (if (cl + 0x10) % 0x80 ≠ 0 then cl + (0x80 - (cl + 0x10) % 0x80) else cl)
      = roundUpTo 0x80 (cl + 0x10) - 0x10 := by
  unfold roundUpTo
  split_ifs with hr <;> omega

/-- C3: `source_size` of a compressed block (`compressed_length <
32000`) is `compressed_length + 0x10` rounded up to the next 128-byte
multiple, minus the 0x10 header already read; for an uncompressed
block (`compressed_length = 32000`) it is `decompressed_length`. -/
theorem source_size_spec (h : DataBlockHeader) :
    (h.compressed_length < 32000 →
      h.source_size = some (roundUpTo 0x80 (h.compressed_length + 0x10) - 0x10))
    ∧ (h.compressed_length = 32000 →
      h.source_size = some h.decompressed_length) := by
  constructor
  · intro hlt
    simp only [DataBlockHeader.source_size, DataBlockHeader.is_compressed, if_pos hlt,
      Option.map_some', if_true]
    rw [roundUpTo_pad]
  · intro heq
    simp only [DataBlockHeader.source_size, DataBlockHeader.is_compressed, heq]
    norm_num

/-- C3 witness: a compressed block of length 200 occupies 240 source
bytes (216 rounded up to 256, minus the 16-byte header); a raw block
(`compressed_length = 32000`) occupies its `decompressed_length`. -/
theorem source_size_spec_witness :
    DataBlockHeader.source_size ⟨200, 500⟩
      = some (roundUpTo 0x80 (200 + 0x10) - 0x10)
    ∧ DataBlockHeader.source_size ⟨32000, 500⟩ = some 500 :=
  ⟨(source_size_spec ⟨200, 500⟩).1 (by norm_num),
   (source_size_spec ⟨32000, 500⟩).2 rfl⟩

theorem xorStreamFrom_getD (lookup : Nat → Nat) :
    ∀ (bytes : List Nat) (start i : Nat), i < bytes.length →
      (xorStreamFrom lookup start bytes).getD i 0
        = bytes.getD i 0 ^^^ lookup (start + i) := by
  intro bytes
  induction bytes with
  | nil =>
    intro start i hi
    simp at hi
  | cons b rest ih =>
    intro start i hi
    cases i with
    | zero => simp [xorStreamFrom]
    | succ i =>
      have := ih (start + 1) i (by simpa using Nat.lt_of_succ_lt_succ hi)
      simp only [xorStreamFrom, List.getD_cons_succ]
      rw [this]
      have harg : start + 1 + i = start + (i + 1) := by omega
      rw [harg]

/-- C9: decoding a container whose sound entry `data_type` is −1
(Empty) fails with the empty-sound-data error
(`LastLegendError::Custom "Empty sound data"`), whatever the target
transform and transcoder; no output stream is produced. -/
theorem scd_empty_spec
    (format_rewrite : String → List Nat → Except LastLegendError (List Nat))
    (audio_transform : ScdAudioTransform) (scd : Scd)
    (hwf : scdWf scd) (hdt : scd.sound_entry_header.data_type.code = -1) :
    ScdTfForFile.decode format_rewrite audio_transform scd
      = .error (.Custom "Empty sound data") := by
  have hdt2 : scd.sound_entry_header.data_type = DataType.Empty := by
    cases h : scd.sound_entry_header.data_type
    · rfl
    · rw [h] at hdt
      simp [DataType.code] at hdt
    · rw [h] at hdt
      simp [DataType.code] at hdt
  unfold scdWf at hwf
  rw [hdt2] at hwf
  cases hsd : scd.sound_data with
  | Empty => simp [ScdTfForFile.decode, hsd]
  | OggData m =>
    rw [hsd] at hwf
    simp [SoundData.expectedType] at hwf
  | MsAdpcmData m =>
    rw [hsd] at hwf
    simp [SoundData.expectedType] at hwf

/-- C9 witness: the empty container decodes to the error. -/
theorem scd_empty_spec_witness :
    ScdTfForFile.decode (fun _ _ => .ok []) ScdAudioTransform.Ogg
      ⟨⟨0, DataType.Empty⟩, SoundData.Empty, []⟩
      = .error (.Custom "Empty sound data") :=
  scd_empty_spec (fun _ _ => .ok []) ScdAudioTransform.Ogg
    ⟨⟨0, DataType.Empty⟩, SoundData.Empty, []⟩ (by decide) (by decide)

/-- C7: for an SCD with `data_type` 6 (Ogg) and `enc_type` 0x2003
(InternalTableXor), the OGG output over the concatenated vorbis
header and `data_size`-byte payload is the raw stream XORed at
position `i` with
`XOR_TABLE[(table_off + i) & 0xFF] ^ static_xor`, where
`static_xor = data_size & 0x7F` and `table_off = data_size & 0x3F`. -/
theorem scd_internal_table_xor_spec
    (format_rewrite : String → List Nat → Except LastLegendError (List Nat))
    (scd : Scd) (m : OggMetaHeader)
    (hwf : scdWf scd) (hdt : scd.sound_entry_header.data_type.code = 6)
    (hsd : scd.sound_data = .OggData m)
    (henc : m.encryption_type = .InternalTableXor) :
    ScdTfForFile.decode format_rewrite .Ogg scd
      = .ok (xorStream (fun i =>
          XOR_TABLE.getD
              (((scd.sound_entry_header.data_size &&& 0x3F) + i) &&& 0xFF) 0
            ^^^ (scd.sound_entry_header.data_size &&& 0x7F))
          (m.vorbis_header
            ++ scd.after.take scd.sound_entry_header.data_size))
    ∧ (∀ i, i < (m.vorbis_header
          ++ scd.after.take scd.sound_entry_header.data_size).length →
        (xorStream (fun i =>
            XOR_TABLE.getD
                (((scd.sound_entry_header.data_size &&& 0x3F) + i) &&& 0xFF) 0
              ^^^ (scd.sound_entry_header.data_size &&& 0x7F))
            (m.vorbis_header
              ++ scd.after.take scd.sound_entry_header.data_size)).getD i 0
          = (m.vorbis_header
              ++ scd.after.take scd.sound_entry_header.data_size).getD i 0
            ^^^ (XOR_TABLE.getD
                (((scd.sound_entry_header.data_size &&& 0x3F) + i) &&& 0xFF) 0
              ^^^ (scd.sound_entry_header.data_size &&& 0x7F))) := by
  constructor
  · simp [ScdTfForFile.decode, hsd, henc]
  · intro i hi
    have := xorStreamFrom_getD (fun i =>
        XOR_TABLE.getD
            (((scd.sound_entry_header.data_size &&& 0x3F) + i) &&& 0xFF) 0
          ^^^ (scd.sound_entry_header.data_size &&& 0x7F))
      (m.vorbis_header ++ scd.after.take scd.sound_entry_header.data_size)
      0 i hi
    simpa [xorStream] using this

/-- C7 witness: a concrete container (`data_size` 3, vorbis header
`[0x10, 0x20]`, payload `[1, 2, 3]`) decoded with the internal-table
cipher. -/
theorem scd_internal_table_xor_spec_witness :
    ScdTfForFile.decode (fun _ _ => .ok []) .Ogg
      ⟨⟨3, DataType.Ogg⟩,
        SoundData.OggData ⟨EncryptionType.InternalTableXor, 0, [0x10, 0x20]⟩,
        [1, 2, 3, 4]⟩
      = .ok (xorStream (fun i =>
          XOR_TABLE.getD (((3 &&& 0x3F) + i) &&& 0xFF) 0 ^^^ (3 &&& 0x7F))
          ([0x10, 0x20] ++ ([1, 2, 3, 4].take 3))) :=
  (scd_internal_table_xor_spec (fun _ _ => .ok [])
    ⟨⟨3, DataType.Ogg⟩,
      SoundData.OggData ⟨EncryptionType.InternalTableXor, 0, [0x10, 0x20]⟩,
      [1, 2, 3, 4]⟩
    ⟨EncryptionType.InternalTableXor, 0, [0x10, 0x20]⟩
    (by decide) (by decide) rfl rfl).1

/-- Two distinct suffixes of equal length cannot both be suffixes of
one string. -/
theorem strEndsWith_disjoint (name a b : String)
    (hlen : a.data.length = b.data.length) (hne : a.data ≠ b.data)
    (ha : strEndsWith name a = true) : strEndsWith name b = false := by
  by_contra hb
  rw [Bool.not_eq_false] at hb
  unfold strEndsWith at ha hb
  have hsa : a.data <:+ name.data := by
    rwa [← List.isSuffixOf_iff_suffix]
  have hsb : b.data <:+ name.data := by
    rwa [← List.isSuffixOf_iff_suffix]
  obtain ⟨t1, ht1⟩ := hsa
  obtain ⟨t2, ht2⟩ := hsb
  have hteq : t1.length = t2.length := by
    have l1 := congrArg List.length ht1
    have l2 := congrArg List.length ht2
    simp only [List.length_append] at l1 l2
    omega
  exact hne (List.append_inj_right (ht1.trans ht2.symm) hteq)

/-- C8: the transformer chain skips a non-matching transformer
without changing the file name or the bytes; the empty chain is the
identity; a chain none of whose transformers match is the identity;
in particular `[scd_to_ogg, loop_ogg]` leaves a `*.bin` file's name
and bytes unchanged. -/
theorem transformer_chain_spec :
    (∀ (applyTf : TransformerImpl → String → List Nat →
          Except LastLegendError (List Nat))
        (t : TransformerImpl) (ts : List TransformerImpl)
        (name : String) (bytes : List Nat),
        t.matchesFile name = false →
        create_transformed_reader applyTf (t :: ts) name bytes
          = create_transformed_reader applyTf ts name bytes)
    ∧ (∀ (applyTf : TransformerImpl → String → List Nat →
          Except LastLegendError (List Nat))
        (name : String) (bytes : List Nat),
        create_transformed_reader applyTf [] name bytes = .ok (name, bytes))
    ∧ (∀ (applyTf : TransformerImpl → String → List Nat →
          Except LastLegendError (List Nat))
        (chain : List TransformerImpl) (name : String) (bytes : List Nat),
        (∀ t ∈ chain, TransformerImpl.matchesFile t name = false) →
        create_transformed_reader applyTf chain name bytes
          = .ok (name, bytes))
    ∧ (∀ (applyTf : TransformerImpl → String → List Nat →
          Except LastLegendError (List Nat))
        (name : String) (bytes : List Nat),
        strEndsWith name ".bin" = true →
        create_transformed_reader applyTf
          [TransformerImpl.ScdToOgg, TransformerImpl.LoopOgg] name bytes
          = .ok (name, bytes)) := by
  have hskip : ∀ (applyTf : TransformerImpl → String → List Nat →
        Except LastLegendError (List Nat))
      (t : TransformerImpl) (ts : List TransformerImpl)
      (name : String) (bytes : List Nat),
      t.matchesFile name = false →
      create_transformed_reader applyTf (t :: ts) name bytes
        = create_transformed_reader applyTf ts name bytes := by
    intro applyTf t ts name bytes hm
    simp [create_transformed_reader, hm]
  have hnone : ∀ (applyTf : TransformerImpl → String → List Nat →
        Except LastLegendError (List Nat))
      (chain : List TransformerImpl) (name : String) (bytes : List Nat),
      (∀ t ∈ chain, TransformerImpl.matchesFile t name = false) →
      create_transformed_reader applyTf chain name bytes
        = .ok (name, bytes) := by
    intro applyTf chain
    induction chain with
    | nil => intro name bytes _; rfl
    | cons t ts ih =>
      intro name bytes hm
      rw [hskip applyTf t ts name bytes (hm t (List.mem_cons_self _ _))]
      exact ih name bytes fun q hq => hm q (List.mem_cons_of_mem _ hq)
  refine ⟨hskip, fun applyTf name bytes => rfl, hnone, ?_⟩
  intro applyTf name bytes hbin
  apply hnone
  intro t ht
  have hscd : strEndsWith name ".scd" = false :=
    strEndsWith_disjoint name ".bin" ".scd" (by decide) (by decide) hbin
  have hogg : strEndsWith name ".ogg" = false :=
    strEndsWith_disjoint name ".bin" ".ogg" (by decide) (by decide) hbin
  rcases List.mem_cons.mp ht with rfl | ht2
  · exact hscd
  · rcases List.mem_singleton.mp ht2 with rfl
    exact hogg

/-- C8 witness: the `[scd_to_ogg, loop_ogg]` chain leaves the file
`x.bin` and its bytes untouched. -/
theorem transformer_chain_spec_witness :
    create_transformed_reader (fun _ _ _ => .ok [])
      [TransformerImpl.ScdToOgg, TransformerImpl.LoopOgg] "x.bin" [1, 2, 3]
      = .ok ("x.bin", [1, 2, 3]) :=
  transformer_chain_spec.2.2.2 (fun _ _ _ => .ok []) "x.bin" [1, 2, 3]
    (by decide)

theorem contentRead_eof (c : Nat) :
    contentRead ⟨[], none⟩ c = ([], ⟨[], none⟩) := rfl

/-- Reading to end with a live buffer first drains the buffer's
remaining bytes, then continues over the remaining blocks. -/
theorem readToEnd_drain (chunk : Nat) (hchunk : 0 < chunk)
    (blocks : List BlockData) :
    ∀ (n : Nat) (buf : Buffer), buf.len = n →
      buf.content.length = buf.limit →
      readToEnd chunk ⟨blocks, some buf⟩
        = (buf.content.drop buf.pos ++ (readToEnd chunk ⟨blocks, none⟩).1,
           (readToEnd chunk ⟨blocks, none⟩).2) := by
  intro n
  induction n using Nat.strong_induction_on with
  | _ n ih =>
    intro buf hlen hwf
    rcases Nat.eq_zero_or_pos n with hz | hpos
    · subst hz
      have hcr : buf.can_read = false := by
        unfold Buffer.can_read
        simp [hlen]
      have hdrop : buf.content.drop buf.pos = [] := by
        apply List.drop_eq_nil_of_le
        unfold Buffer.len at hlen
        omega
      have e1 : readToEnd chunk ⟨blocks, some buf⟩
          = readToEnd chunk ⟨blocks, none⟩ := by
        rw [readToEnd]
        conv_rhs => rw [readToEnd]
        simp only [contentRead, hcr, Bool.false_eq_true, if_false]
      rw [e1, hdrop, List.nil_append]
    · have hcr : buf.can_read = true := by
        unfold Buffer.can_read
        simp [hlen, hpos]
      have hr : contentRead ⟨blocks, some buf⟩ chunk
          = ((buf.content.drop buf.pos).take (min buf.len chunk),
             ⟨blocks, some ⟨buf.content, buf.pos + min buf.len chunk,
               buf.limit⟩⟩) := by
        simp [contentRead, hcr, copyFromBuffer]
      have hminpos : 0 < min buf.len chunk := by
        omega
      have hdropne : buf.content.drop buf.pos ≠ [] := by
        intro hnil
        have := congrArg List.length hnil
        simp only [List.length_drop, List.length_nil] at this
        unfold Buffer.len at hlen
        omega
      have hbytes : (buf.content.drop buf.pos).take (min buf.len chunk)
          ≠ [] := by
        rw [ne_eq, List.take_eq_nil_iff]
        push_neg
        exact ⟨by omega, hdropne⟩
      rw [readToEnd]
      simp only [hr, hbytes, dite_false]
      have hih := ih (n - min buf.len chunk) (by omega)
        ⟨buf.content, buf.pos + min buf.len chunk, buf.limit⟩
        (by unfold Buffer.len at hlen ⊢; simp; omega) (by simpa using hwf)
      rw [hih]
      simp only [Prod.mk.injEq]
      constructor
      · rw [← List.append_assoc]
        congr 1
        have : buf.content.drop (buf.pos + min buf.len chunk)
            = (buf.content.drop buf.pos).drop (min buf.len chunk) := by
          rw [List.drop_drop]
        rw [this, List.take_append_drop]
      · trivial

/-- Reading to end over nonempty decoded blocks yields their
concatenation and ends in the freed EOF state. -/
theorem readToEnd_blocks (chunk : Nat) (hchunk : 0 < chunk) :
    ∀ blocks : List BlockData,
      (∀ b ∈ blocks, b.decoded ≠ []) →
      readToEnd chunk ⟨blocks, none⟩
        = ((blocks.map fun b => b.decoded).flatten, ⟨[], none⟩) := by
  intro blocks
  induction blocks with
  | nil =>
    intro _
    rw [readToEnd]
    simp [contentRead, refillRead]
  | cons b rest ih =>
    intro hpos
    have hbne : b.decoded ≠ [] := hpos b (List.mem_cons_self _ _)
    have hblen : 0 < b.decoded.length := List.length_pos.mpr hbne
    have hr : contentRead ⟨b :: rest, none⟩ chunk
        = (b.decoded.take (min b.decoded.length chunk),
           ⟨rest, some ⟨b.decoded, min b.decoded.length chunk,
             b.decoded.length⟩⟩) := by
      simp [contentRead, refillRead, copyFromBuffer, Buffer.len]
    have hbytes : b.decoded.take (min b.decoded.length chunk) ≠ [] := by
      rw [ne_eq, List.take_eq_nil_iff]
      push_neg
      exact ⟨by omega, hbne⟩
    rw [readToEnd]
    simp only [hr, hbytes, dite_false]
    have hdrain := readToEnd_drain chunk hchunk rest
      (b.decoded.length - min b.decoded.length chunk)
      ⟨b.decoded, min b.decoded.length chunk, b.decoded.length⟩
      (by unfold Buffer.len; simp) (by simp)
    rw [hdrain, ih fun q hq => hpos q (List.mem_cons_of_mem _ hq)]
    simp only [Prod.mk.injEq]
    constructor
    · rw [← List.append_assoc]
      simp only [List.map_cons, List.flatten_cons]
      congr 1
      exact List.take_append_drop _ _
    · trivial

/-- C2 counterexample: an entry whose descriptors' decompressed sizes
sum to its uncompressed size (here 1) but whose first block is
zero-sized.  Filling the buffer from the zero-sized block makes `read`
return `Ok(0)`, which `read_to_end` takes as EOF, so 0 bytes are
produced instead of 1. -/
theorem dat_read_cex :
    ((([⟨⟨0, 2, 0⟩, []⟩, ⟨⟨0x80, 3, 1⟩, [7]⟩] : List BlockData).map
        fun b => b.desc.decompressed_size).sum = 1)
    ∧ (∀ b ∈ ([⟨⟨0, 2, 0⟩, []⟩, ⟨⟨0x80, 3, 1⟩, [7]⟩] : List BlockData),
        b.decoded.length = b.desc.decompressed_size)
    ∧ (readToEnd 1024
        ⟨[⟨⟨0, 2, 0⟩, []⟩, ⟨⟨0x80, 3, 1⟩, [7]⟩], none⟩).1 = [] := by
  refine ⟨by decide, by decide, ?_⟩
  rw [readToEnd]
  simp [contentRead, refillRead, copyFromBuffer, Buffer.len]

/-- C2 (amended): for an entry all of whose block descriptors carry a
positive `decompressed_size`, with the decoded block lengths matching
the descriptors (as `read_exact` enforces) and the descriptor sizes
summing to `uncompressed_size`, reading the `DatEntryContent` to end
produces the concatenation of the decoded blocks in descriptor order,
exactly `uncompressed_size` bytes; the reader ends with no blocks and
a released buffer, and in that state every further read returns 0
bytes. -/
theorem dat_read_spec (chunk uncompressed_size : Nat) (hchunk : 0 < chunk)
    (blocks : List BlockData)
    (hlen : ∀ b ∈ blocks, b.decoded.length = b.desc.decompressed_size)
    (hpos : ∀ b ∈ blocks, 0 < b.desc.decompressed_size)
    (hsum : (blocks.map fun b => b.desc.decompressed_size).sum
      = uncompressed_size) :
    (readToEnd chunk ⟨blocks, none⟩).1
      = (blocks.map fun b => b.decoded).flatten
    ∧ (readToEnd chunk ⟨blocks, none⟩).1.length = uncompressed_size
    ∧ (readToEnd chunk ⟨blocks, none⟩).2 = ⟨[], none⟩
    ∧ (∀ c : Nat, contentRead ⟨[], none⟩ c = ([], ⟨[], none⟩)) := by
  have hne : ∀ b ∈ blocks, b.decoded ≠ [] := by
    intro b hb
    have h1 := hlen b hb
    have h2 := hpos b hb
    intro hnil
    rw [hnil] at h1
    simp at h1
    omega
  have hmain := readToEnd_blocks chunk hchunk blocks hne
  refine ⟨by rw [hmain], ?_, by rw [hmain], fun c => rfl⟩
  rw [hmain]
  simp only [List.length_flatten, List.map_map]
  rw [← hsum]
  congr 1
  apply List.map_congr_left
  intro b hb
  simpa using hlen b hb

/-- C2 witness: two blocks of 200 and 500 decoded bytes yield 700
bytes (the spec's concrete BlockReader scenario). -/
theorem dat_read_spec_witness :
    (readToEnd 0x2000
        ⟨[⟨⟨0, 0x80, 200⟩, List.replicate 200 0⟩,
          ⟨⟨0x80, 0x1F4, 500⟩, List.replicate 500 0⟩], none⟩).1.length
      = 700 :=
  (dat_read_spec 0x2000 700 (by decide)
    [⟨⟨0, 0x80, 200⟩, List.replicate 200 0⟩,
     ⟨⟨0x80, 0x1F4, 500⟩, List.replicate 500 0⟩]
    (by decide) (by decide) (by decide)).2.1

theorem parseEntryTable_length (n : Nat) :
    ∀ (bytes : List Nat) (table : List (Nat × Index2Entry)),
      parseEntryTable n bytes = some table → table.length = n := by
  induction n with
  | zero =>
    intro bytes table h
    simp only [parseEntryTable, Option.some.injEq] at h
    rw [← h]
    rfl
  | succ n ih =>
    intro bytes table h
    rcases bytes with _ | ⟨b0, _ | ⟨b1, _ | ⟨b2, _ | ⟨b3, _ |
      ⟨b4, _ | ⟨b5, _ | ⟨b6, _ | ⟨b7, rest⟩⟩⟩⟩⟩⟩⟩⟩ <;>
      simp only [parseEntryTable] at h
    all_goals try exact Option.noConfusion h
    rcases Option.map_eq_some'.mp h with ⟨tail, htail, rfl⟩
    simp [ih rest tail htail]

/-- The size of the collected map is the number of distinct hashes in
the table. -/
theorem entriesMap_card (l : List (Nat × Index2Entry)) :
    (entriesMap l).length = (l.map Prod.fst).toFinset.card := by
  unfold entriesMap
  obtain ⟨hnd, hmem⟩ := entriesMap_keys_foldl l [] (by simp)
  have h1 : (l.foldl (fun m p => mapInsert m p.1 p.2) []).length
      = ((l.foldl (fun m p => mapInsert m p.1 p.2) []).map Prod.fst).length :=
    (List.length_map _ _).symm
  have h2 : ((l.foldl (fun m p => mapInsert m p.1 p.2) []).map Prod.fst).toFinset
      = (l.map Prod.fst).toFinset := by
    ext x
    simp only [List.mem_toFinset]
    rw [hmem x]
    simp
  rw [h1, ← List.toFinset_card_of_nodup hnd, h2]

/-- C10: the index load parses `index_data_size / 8` entries in table
order; on duplicate hashes within one table the later entry replaces
the earlier, so `get_entry` returns the later entry; the stored map is
never larger than the table and is strictly smaller whenever the table
holds a duplicate hash. -/
theorem index2_map_spec :
    (∀ (index_data_size : Nat) (bytes : List Nat)
        (table : List (Nat × Index2Entry)),
        parseEntryTable (Index2.entryCount index_data_size) bytes = some table →
        table.length = index_data_size / 8)
    ∧ (∀ (index_path : String) (file : List Nat)
        (l1 l2 l3 : List (Nat × Index2Entry)) (e1 e2 : Index2Entry),
        (∀ p ∈ l3, p.1 ≠ sq_index_hash file) →
        Index2.get_entry index_path
          (entriesMap ((l1 ++ (sq_index_hash file, e1) :: l2)
            ++ (sq_index_hash file, e2) :: l3))
          file = .ok e2)
    ∧ (∀ l : List (Nat × Index2Entry), (entriesMap l).length ≤ l.length)
    ∧ (∀ l : List (Nat × Index2Entry), ¬ (l.map Prod.fst).Nodup →
        (entriesMap l).length < l.length) := by
  refine ⟨?_, ?_, ?_, ?_⟩
  · intro ids bytes table h
    exact parseEntryTable_length _ bytes table h
  · intro index_path file l1 l2 l3 e1 e2 h3
    have hlook : mapLookup
        (entriesMap ((l1 ++ (sq_index_hash file, e1) :: l2)
          ++ (sq_index_hash file, e2) :: l3))
        (sq_index_hash file) = some e2 := by
      unfold entriesMap
      rw [List.foldl_append, List.foldl_cons]
      rw [mapLookup_foldl_of_not_mem l3 _ _ h3]
      exact mapLookup_mapInsert_self _ _ _
    unfold Index2.get_entry
    rw [hlook]
  · intro l
    rw [entriesMap_card]
    calc (l.map Prod.fst).toFinset.card
        ≤ (l.map Prod.fst).length := List.toFinset_card_le _
      _ = l.length := List.length_map _ _
  · intro l hnd
    rw [entriesMap_card]
    have hsub := List.dedup_sublist (l.map Prod.fst)
    have hlt : (l.map Prod.fst).dedup.length < (l.map Prod.fst).length := by
      rcases Nat.lt_or_ge (l.map Prod.fst).dedup.length
          (l.map Prod.fst).length with h | h
      · exact h
      · exfalso
        have heq := hsub.eq_of_length (Nat.le_antisymm hsub.length_le h)
        exact hnd (heq ▸ List.nodup_dedup (l.map Prod.fst))
    calc (l.map Prod.fst).toFinset.card
        = (l.map Prod.fst).dedup.length := List.card_toFinset _
      _ < (l.map Prod.fst).length := hlt
      _ = l.length := List.length_map _ _

/-- C10 witness: with two table entries carrying the hash of the file
`"a"` (byte 0x61), `get_entry` returns the later one. -/
theorem index2_map_spec_witness :
    Index2.get_entry "0c0000.win32.index2"
      (entriesMap (([] ++ (sq_index_hash [0x61], ⟨1, 0, 0⟩) :: [])
        ++ (sq_index_hash [0x61], ⟨1, 1, 0x80⟩) :: []))
      [0x61] = .ok ⟨1, 1, 0x80⟩ :=
  index2_map_spec.2.1 "0c0000.win32.index2" [0x61] [] [] []
    ⟨1, 0, 0⟩ ⟨1, 1, 0x80⟩ (by simp)

/-- C6: `sqpack_index_path` fails exactly when the category segment,
the expansion segment or a third segment is missing or unrecognized;
on success it returns
`<repo>/<expansion>/<cat><exp><spn>.win32.index2` with the category,
expansion and sqpack bytes rendered as two lowercase ASCII-hex digits;
the sqpack number is the third segment's leading token up to the first
underscore parsed as one-byte hex, defaulting to 0; and the concrete
path `music/ffxiv/BGM_System_Title.scd` under repo `/r` resolves to
`/r/ffxiv/0c0000.win32.index2`. -/
theorem sqpack_index_path_spec :
    (∀ repo s : String,
      (sqpack_index_path repo s = none ↔
        FileType.parse_from_sqpath s = none
        ∨ Expansion.parse_from_sqpath s = none
        ∨ (pathSegments s).get? 2 = none))
    ∧ (∀ (repo s : String) (ft : FileType) (exp : Expansion) (spn : Nat),
        FileType.parse_from_sqpath s = some ft →
        Expansion.parse_from_sqpath s = some exp →
        SqPackNumber.parse_from_sqpath s = some spn →
        sqpack_index_path repo s
          = some (repo ++ "/" ++ exp.as_str ++ "/"
              ++ ft.file_name_prefix_bytes ++ exp.file_name_prefix_bytes
              ++ bytesToString (SqPackNumber.file_name_prefix_bytes spn)
              ++ ".win32.index2"))
    ∧ (∀ (s : String) (third : String), (pathSegments s).get? 2 = some third →
        SqPackNumber.parse_from_sqpath s
          = some ((parseHexU8 ((splitOnChar '_' third.data).headD [])).getD 0))
    ∧ (∀ n : Nat, n < 256 →
        isLowerHexPair (SqPackNumber.file_name_prefix_bytes n) n)
    ∧ sqpack_index_path "/r" "music/ffxiv/BGM_System_Title.scd"
        = some "/r/ffxiv/0c0000.win32.index2" := by
  refine ⟨fun repo s => ?_, fun repo s ft exp spn h1 h2 h3 => ?_,
    fun s third h3 => ?_, by decide, by decide⟩
  · cases hft : FileType.parse_from_sqpath s with
    | none => simp [sqpack_index_path, hft]
    | some ft =>
      cases hexp : Expansion.parse_from_sqpath s with
      | none => simp [sqpack_index_path, hft, hexp]
      | some exp =>
        cases h3 : (pathSegments s).get? 2 with
        | none =>
          have hs : SqPackNumber.parse_from_sqpath s = none := by
            unfold SqPackNumber.parse_from_sqpath
            rw [h3]
            rfl
          simp [sqpack_index_path, hft, hexp, hs]
        | some third =>
          have hs : SqPackNumber.parse_from_sqpath s
              = some ((parseHexU8
                  ((splitOnChar '_' third.data).headD [])).getD 0) := by
            unfold SqPackNumber.parse_from_sqpath
            rw [h3]
            rfl
          simp [sqpack_index_path, hft, hexp, hs]
  · simp [sqpack_index_path, h1, h2, h3]
  · unfold SqPackNumber.parse_from_sqpath
    rw [h3]
    rfl

/-- C6 witness: the characterization applied to the concrete path
`common/ex2/0fe_uwu.owo` (category `common` = 00, expansion `ex2` =
02, sqpack number `0fe` = 0xfe). -/
theorem sqpack_index_path_spec_witness :
    sqpack_index_path "/r" "common/ex2/0fe_uwu.owo"
      = some "/r/ex2/0002fe.win32.index2" := by
  have h := sqpack_index_path_spec.2.1 "/r" "common/ex2/0fe_uwu.owo"
    FileType.Common Expansion.Stormblood 0xfe (by decide) (by decide) (by decide)
  simpa using h

/-- C4: for a 32-bit packed word, the decoded `data_file_id` is
`(packed >>> 1) &&& 0x7`, the decoded `offset_bytes` is
`(packed >>> 4) <<< 7`, and bit 0 of `packed` affects neither. -/
theorem index2entry_decode_spec (packed : Nat) (hlt : packed < 2 ^ 32) :
    Index2Entry.dataFileId packed = (packed >>> 1) &&& 0x7
    ∧ Index2Entry.offsetBytes packed = (packed >>> 4) <<< 7
    ∧ (∀ packed' : Nat, packed' / 2 = packed / 2 →
        Index2Entry.dataFileId packed' = Index2Entry.dataFileId packed
        ∧ Index2Entry.offsetBytes packed' = Index2Entry.offsetBytes packed) := by
  refine ⟨?_, ?_, ?_⟩
  · rw [Index2Entry.dataFileId, Nat.shiftRight_eq_div_pow]
    have := Nat.and_pow_two_sub_one_eq_mod (packed / 2 ^ 1) 3
    simpa using this.symm
  · rw [Index2Entry.offsetBytes, Nat.shiftRight_eq_div_pow, Nat.shiftLeft_eq]
    have hsm : packed / 2 ^ 4 % 2 ^ 28 = packed / 2 ^ 4 := by
      apply Nat.mod_eq_of_lt
      apply Nat.div_lt_of_lt_mul
      calc packed < 2 ^ 32 := hlt
        _ = 2 ^ 4 * 2 ^ 28 := by norm_num
    rw [hsm]
  · intro packed' hbit
    constructor
    · simp only [Index2Entry.dataFileId, pow_one, hbit]
    · simp only [Index2Entry.offsetBytes]
      have : packed' / 2 ^ 4 = packed / 2 ^ 4 := by
        have h1 : packed' / 2 ^ 4 = packed' / 2 / 2 ^ 3 := by
          rw [Nat.div_div_eq_div_mul]
          norm_num
        have h2 : packed / 2 ^ 4 = packed / 2 / 2 ^ 3 := by
          rw [Nat.div_div_eq_div_mul]
          norm_num
        rw [h1, h2, hbit]
      rw [this]

/-- C4 witness: the decode equations and bit-0 independence at the
concrete packed word 0x123 (whose bit 0 is set; 0x122 clears it). -/
theorem index2entry_decode_spec_witness :
    Index2Entry.dataFileId 0x123 = (0x123 >>> 1) &&& 0x7
    ∧ Index2Entry.offsetBytes 0x123 = (0x123 >>> 4) <<< 7
    ∧ Index2Entry.dataFileId 0x122 = Index2Entry.dataFileId 0x123
    ∧ Index2Entry.offsetBytes 0x122 = Index2Entry.offsetBytes 0x123 := by
  have h := index2entry_decode_spec 0x123 (by norm_num)
  exact ⟨h.1, h.2.1, (h.2.2 0x122 (by norm_num)).1, (h.2.2 0x122 (by norm_num)).2⟩

/-- C5 counterexample: the packed value 0x00000123 does NOT decode to
`offset_bytes = 0x1200`: bits 4..32 of 0x123 are 0x12, and
`0x12 <<< 7 = 0x900`. -/
theorem index2entry_decode_example_cex :
    ¬ (Index2Entry.dataFileId 0x00000123 = 1
       ∧ Index2Entry.offsetBytes 0x00000123 = 0x1200) := by
  decide

/-- C5 (amended): decoding the packed value 0x00000123 yields
`data_file_id = (0x123 >>> 1) &&& 0x7 = 1` and
`offset_bytes = (0x123 >>> 4) <<< 7 = 0x900`. -/
theorem index2entry_decode_example :
    Index2Entry.dataFileId 0x00000123 = (0x123 >>> 1) &&& 0x7
    ∧ Index2Entry.dataFileId 0x00000123 = 1
    ∧ Index2Entry.offsetBytes 0x00000123 = (0x123 >>> 4) <<< 7
    ∧ Index2Entry.offsetBytes 0x00000123 = 0x900 := by
  decide
